import Mathlib

/-!
Shallow embedding of the hybrid retrieval and reranking engine
(`src/hybrid_retriever.py`, `src/reranker_cross_encoder.py`).

Numeric scores are modelled over `ℚ`.  External services (the embedding
endpoint, the BM25 scorer from `bm25_retriever.py`, the pairwise scoring
model) are modelled as explicit function parameters, matching the spec's
treatment of them as opaque numeric producers behind a stable interface.
`np.argsort(-scores)` is modelled as the deterministic descending index
sort that breaks ties by index order; numpy's default quicksort does not
document a tie order, which is noted where it matters.
-/

namespace Neus

/-- A candidate symbol dict as consumed by the rerankers: only the fields
the reranker logic reads (`cd`, `name`) are carried. -/
structure Candidate where
  cd : String
  name : String
  deriving Repr, DecidableEq, Inhabited

/-- Symbol id string `cd:name` built by the rerankers via
`f"{symbol.get('cd','')}:{symbol.get('name','')}"`. -/
def candidateId (c : Candidate) : String :=
  c.cd ++ ":" ++ c.name

/-- Insert a `(candidate, score)` pair into a list already sorted
descending by score, keeping existing elements first on ties.  Together
with `sortDescPairs` this models Python's stable
`scored.sort(key=lambda x: x[1], reverse=True)`. -/
def insertDescPair (p : Candidate × ℚ) : List (Candidate × ℚ) → List (Candidate × ℚ)
  | [] => [p]
  | q :: rest => if q.2 > p.2 then q :: insertDescPair p rest else p :: q :: rest

/-- Stable sort of `(candidate, score)` pairs, descending by score. -/
def sortDescPairs : List (Candidate × ℚ) → List (Candidate × ℚ)
  | [] => []
  | p :: rest => insertDescPair p (sortDescPairs rest)

/-- Model of `apply_threshold_rule` (reranker_cross_encoder.py lines
117-159): pair candidates with scores, sort descending by score, and keep
the first `min (max min_keep above_threshold_count) length` pairs. -/
def apply_threshold_rule (candidates : List Candidate) (scores : List ℚ)
    (threshold : ℚ) (min_keep : ℕ) : List (Candidate × ℚ) :=
  let scored := sortDescPairs (candidates.zip scores)
  let above_threshold_count := scored.countP (fun p => threshold ≤ p.2)
  let keep_count := min (max min_keep above_threshold_count) scored.length
  scored.take keep_count

/-- Model of `RerankerResult`: kept symbols carry their raw score (the
Python code stores `round(score, 4)` inside the dict; display rounding is
not modelled), `all_scores` is the per-candidate diagnostic map in
insertion order. -/
structure RerankerResult where
  problem_id : String
  problem_text : String
  original_count : ℕ
  reranked_symbols : List (Candidate × ℚ) := []
  all_scores : List (String × ℚ) := []
  success : Bool := true
  error : Option String := none
  deriving Repr, DecidableEq

/-- Model of `SentenceTransformerReranker.rerank` (lines 259-321) after a
successful `score_batch` call returning `scores`: every candidate is
recorded in `all_scores`, but only candidates with `score >= threshold`
are appended to the kept list, which is then stable-sorted descending.
`self.min_keep` is never consulted by this method. -/
def stRerank (problem_id problem_text : String) (candidates : List Candidate)
    (scores : List ℚ) (threshold : ℚ) : RerankerResult :=
  let scored := candidates.zip scores
  { problem_id := problem_id
    problem_text := problem_text
    original_count := candidates.length
    all_scores := scored.map (fun p => (candidateId p.1, p.2))
    reranked_symbols := sortDescPairs (scored.filter (fun p => threshold ≤ p.2))
    success := true
    error := none }

/-- Model of `VLLMReranker.rerank` (lines 907-971) after all per-candidate
`score` calls returned `scores` (a failed request inside `score` already
degrades to `0.0` there): records every score, then applies
`apply_threshold_rule` with the configured threshold and `min_keep`. -/
def vllmRerank (problem_id problem_text : String) (candidates : List Candidate)
    (scores : List ℚ) (threshold : ℚ) (min_keep : ℕ) : RerankerResult :=
  { problem_id := problem_id
    problem_text := problem_text
    original_count := candidates.length
    all_scores := (candidates.zip scores).map (fun p => (candidateId p.1, p.2))
    reranked_symbols := apply_threshold_rule candidates scores threshold min_keep
    success := true
    error := none }

/-- JSON values as produced by Python `json.loads`: integer literals
become arbitrary-precision `int`, decimal/exponent literals become
`float`.  Note `json.loads` on a bare `true`/`false` yields a Python
`bool`, which passes the `isinstance(data, (int, float))` check because
`bool` subclasses `int`. -/
inductive Json where
  | int (n : ℤ)
  | real (q : ℚ)
  | bool (b : Bool)
  | str (s : String)
  | arr (l : List Json)
  | obj (l : List (String × Json))
  | null
  deriving Repr, Inhabited

/-- Outcome of a Python `float(x)` call inside `_extract_score`: a value,
an exception from the caught `(ValueError, TypeError)` set, or an
`OverflowError`, which is absent from the `except` tuple at line 719 and
therefore escapes the function. -/
inductive PyFloatResult where
  | ok (q : ℚ)
  | caught
  | overflow
  deriving Repr, DecidableEq

/-- Python `float(x)` on a JSON value: an `int` of magnitude at least
`2 ^ 1024` raises `OverflowError` (in CPython, ints within one
rounding step below that bound overflow too; no theorem exercises that
edge), other ints and all floats convert, booleans convert as 0/1,
strings convert through the caller-supplied numeric string parser with
failures raising a caught `ValueError`, and lists/objects/None raise a
caught `TypeError`. -/
def pyFloat (strToFloat : String → Option ℚ) : Json → PyFloatResult
  | .int n => if 2 ^ 1024 ≤ n.natAbs then .overflow else .ok (n : ℚ)
  | .real q => .ok q
  | .bool b => .ok (if b then 1 else 0)
  | .str s =>
      match strToFloat s with
      | some q => .ok q
      | none => .caught
  | .arr _ => .caught
  | .obj _ => .caught
  | .null => .caught

/-- Python dict lookup after `json.loads` of an object: duplicate keys are
overwritten in order, so the last occurrence wins. -/
def dictGet (l : List (String × Json)) (k : String) : Option Json :=
  (l.reverse.find? (fun p => p.1 == k)).map (fun p => p.2)

/-- Clamp to the unit interval, modelling `max(0.0, min(1.0, score))`. -/
def clamp01 (q : ℚ) : ℚ :=
  max 0 (min 1 q)

/-- The score keys `_extract_score` probes, in order. -/
def scoreKeys : List String := ["score", "relevance", "rating", "value"]

/-- How the `try: json.loads ...` block of `_extract_score` ends. -/
inductive JsonScoreOutcome where
  | value (q : ℚ)
  | fallthrough
  | raised
  deriving Repr, DecidableEq

/-- Outcome of the `try: json.loads ...` block of `_extract_score`
(lines 707-720): `value q` when the block returns `clamp01 q`,
`fallthrough` when control reaches the free-text number search (parse
failure, non-numeric payload, a dict without any known key, or a caught
`ValueError`/`TypeError` from `float` on the first known key found), and
`raised` when `float` raises `OverflowError` on an out-of-range JSON
integer, which escapes the whole function. -/
def jsonPathScore (strToFloat : String → Option ℚ) : Option Json → JsonScoreOutcome
  | some (.obj l) =>
      match (scoreKeys.filter (fun k => (dictGet l k).isSome)).head? with
      | some k =>
          match dictGet l k with
          | some v =>
              match pyFloat strToFloat v with
              | .ok q => .value q
              | .caught => .fallthrough
              | .overflow => .raised
          | none => .fallthrough
      | none => .fallthrough
  | some (.int n) =>
      match pyFloat strToFloat (.int n) with
      | .ok q => .value q
      | .caught => .fallthrough
      | .overflow => .raised
  | some (.real q) => .value q
  | some (.bool b) => .value (if b then 1 else 0)
  | _ => .fallthrough

/-- Model of `OllamaReranker._extract_score` (lines 688-735).  The string
handling is abstracted into three oracles describing the outcome of
Python-library calls on the raw response: `isBlank` is
`not raw_response.strip()`, `parsed` the outcome of `json.loads` (its
parse failure is the caught `JSONDecodeError`), and `textNumber` the
value of the first regex match `(\d+\.?\d*)` in the raw text (such a
match always converts with `float`, to `inf` when huge, never raising).
A number above `1.0` found in free text is read as a percentage.  The
`.error` outcome is the uncaught `OverflowError` from `float` on an
out-of-range JSON integer; every other path returns a clamped score. -/
def extract_score (strToFloat : String → Option ℚ) (isBlank : Bool)
    (parsed : Option Json) (textNumber : Option ℚ) : Except String ℚ :=
  if isBlank then .ok 0
  else
    match jsonPathScore strToFloat parsed with
    | .value q => .ok (clamp01 q)
    | .raised => .error "OverflowError: int too large to convert to float"
    | .fallthrough =>
        match textNumber with
        | some s => .ok (if s > 1 then clamp01 (s / 100) else clamp01 s)
        | none => .ok 0

/-- A catalogue symbol as seen by `HybridRetriever`: `sympyFunction` is
the `sympy_function` field, with `""` playing the role of a falsy value
for the `require_sympy` filter. -/
structure Symbol where
  id : String
  cd : String
  name : String
  sympyFunction : String := ""
  deriving Repr, DecidableEq, Inhabited

/-- Strict ordering of indices used to model `np.argsort(-scores)`:
higher score first, ties by lower index.  numpy's default quicksort does
not document its tie order; this model fixes the index-order tie-break,
which is the only point where the model refines the source. -/
def idxBefore (scores : List ℚ) (i j : ℕ) : Bool :=
  scores.getD j 0 < scores.getD i 0 || (scores.getD i 0 == scores.getD j 0 && i < j)

/-- Insert an index into an index list sorted by `idxBefore`. -/
def insertIdx (scores : List ℚ) (i : ℕ) : List ℕ → List ℕ
  | [] => [i]
  | j :: rest => if idxBefore scores i j then i :: j :: rest else j :: insertIdx scores i rest

/-- Model of `np.argsort(-scores)`: the indices `0, ..., n-1` sorted
descending by score. -/
def argsortDesc (scores : List ℚ) : List ℕ :=
  (List.range scores.length).foldr (insertIdx scores) []

/-- Pointwise update `v[idx] += x`, modelling `rrf_scores[idx] += ...`. -/
def addAt : List ℚ → ℕ → ℚ → List ℚ
  | [], _, _ => []
  | y :: ys, 0, x => (y + x) :: ys
  | y :: ys, n + 1, x => y :: addAt ys n x

/-- One contribution loop of the RRF computation:
`for rank, idx in enumerate(ranks): rrf_scores[idx] += w / (k + rank + 1)`. -/
def rrfLoop (w k : ℚ) (ranks : List ℕ) (v : List ℚ) : List ℚ :=
  ranks.enum.foldl (fun acc p => addAt acc p.2 (w / (k + p.1 + 1))) v

/-- The fused RRF score vector of `retrieve` (hybrid_retriever.py lines
393-406): start from `np.zeros(len(self.symbols))` and add the BM25 and
dense reciprocal-rank contributions. -/
def rrfScores (n : ℕ) (bw dw k : ℚ) (bm25 dense : List ℚ) : List ℚ :=
  rrfLoop dw k (argsortDesc dense) (rrfLoop bw k (argsortDesc bm25) (List.replicate n 0))

/-- External collaborators of the retriever, as opaque functions:
`bm25All` is `BM25Retriever.get_all_scores(query, expand_query)`,
`stripAsy` the `[asy]...[/asy]` regex removal, `embed` the Ollama
embedding call (with its failure as `Except.error`), and `sqrtFn` the
floating square root used inside `np.linalg.norm`. -/
structure Env where
  bm25All : String → Bool → List ℚ
  stripAsy : String → String
  embed : String → Except String (List ℚ)
  sqrtFn : ℚ → ℚ

/-- Vector norm `np.linalg.norm(v)` through the square-root oracle. -/
def vecNorm (env : Env) (v : List ℚ) : ℚ :=
  env.sqrtFn ((v.map (fun x => x * x)).sum)

/-- Normalisation `v / (norm(v) + 1e-10)` with the epsilon guard. -/
def normalizeVec (env : Env) (v : List ℚ) : List ℚ :=
  v.map (fun x => x / (vecNorm env v + 1 / 10000000000))

/-- Dot product of two vectors (`@` on aligned rows). -/
def dotProd (a b : List ℚ) : ℚ :=
  ((a.zip b).map (fun p => p.1 * p.2)).sum

/-- Dense cosine-similarity score vector
`embeddings_norm @ query_norm` over row-normalised embeddings and the
normalised query vector. -/
def denseScores (env : Env) (embeddings : List (List ℚ)) (q : List ℚ) : List ℚ :=
  embeddings.map (fun row => dotProd (normalizeVec env row) (normalizeVec env q))

/-- Dedup key of a symbol:
`symbol.get("id") or f"{symbol.get('cd','')}:{symbol.get('name','')}"`. -/
def symbolKey (s : Symbol) : String :=
  if s.id ≠ "" then s.id else s.cd ++ ":" ++ s.name

/-- The result-building walk of `retrieve` (lines 411-439), identical in
`_retrieve_with_embedding` (lines 512-539): walk the fused order,
stopping at `topK` accepted, skipping below-minimum scores, symbols
without a SymPy mapping when required, and already-seen dedup keys.
Returns the accepted catalogue indices in acceptance order. -/
def selectLoop (symbols : List Symbol) (rrf : List ℚ) (topK : ℕ) (minScore : ℚ)
    (reqSympy dedup : Bool) : List ℕ → List ℕ → List String → List ℕ
  | [], selected, _ => selected.reverse
  | idx :: rest, selected, seen =>
    if topK ≤ selected.length then selected.reverse
    else if rrf.getD idx 0 < minScore then
      selectLoop symbols rrf topK minScore reqSympy dedup rest selected seen
    else
      let symbol := symbols.getD idx default
      if reqSympy && symbol.sympyFunction == "" then
        selectLoop symbols rrf topK minScore reqSympy dedup rest selected seen
      else if dedup then
        if symbolKey symbol ∈ seen then
          selectLoop symbols rrf topK minScore reqSympy dedup rest selected seen
        else
          selectLoop symbols rrf topK minScore reqSympy dedup rest (idx :: selected)
            (symbolKey symbol :: seen)
      else
        selectLoop symbols rrf topK minScore reqSympy dedup rest (idx :: selected) seen

/-- Model of `HybridRetrievalResult`: ordered symbols with parallel id
list and the three diagnostic score maps in insertion order. -/
structure HybridRetrievalResult where
  query : String
  symbols : List Symbol := []
  symbol_ids : List String := []
  scores : List (String × ℚ) := []
  bm25_scores : List (String × ℚ) := []
  dense_scores : List (String × ℚ) := []
  deriving Repr, DecidableEq

/-- The freshly initialised `HybridRetrievalResult(query=query)`. -/
def emptyResult (query : String) : HybridRetrievalResult :=
  { query := query }

/-- Assemble the result object from the accepted indices, mirroring the
per-acceptance appends into `result.symbols`, `result.symbol_ids` and the
three score maps (all keyed by `symbol["id"]`). -/
def buildResult (query : String) (symbols : List Symbol)
    (rrf bm25 dense : List ℚ) (selected : List ℕ) : HybridRetrievalResult :=
  { query := query
    symbols := selected.map (fun i => symbols.getD i default)
    symbol_ids := selected.map (fun i => (symbols.getD i default).id)
    scores := selected.map (fun i => ((symbols.getD i default).id, rrf.getD i 0))
    bm25_scores := selected.map (fun i => ((symbols.getD i default).id, bm25.getD i 0))
    dense_scores := selected.map (fun i => ((symbols.getD i default).id, dense.getD i 0)) }

/-- The fusion-and-selection tail shared verbatim by the two retrieval
code paths once both score vectors exist. -/
def fuseSelect (query : String) (symbols : List Symbol) (rrfK : ℚ)
    (bm25 dense : List ℚ) (topK : ℕ) (bw dw minScore : ℚ)
    (reqSympy dedup : Bool) : HybridRetrievalResult :=
  let rrf := rrfScores symbols.length bw dw rrfK bm25 dense
  buildResult query symbols rrf bm25 dense
    (selectLoop symbols rrf topK minScore reqSympy dedup (argsortDesc rrf) [] [])

/-- Model of `HybridRetriever.retrieve` (lines 337-446).  `embeddings?`
is `self.embeddings` (`none` models the uninitialised `None`, which makes
the method raise `RuntimeError`).  An embedding failure for the query is
caught and the freshly initialised empty result is returned. -/
def retrieveM (env : Env) (symbols : List Symbol)
    (embeddingsOpt : Option (List (List ℚ))) (rrfK : ℚ) (query : String)
    (topK : ℕ) (bw dw minScore : ℚ) (reqSympy expandQ dedup : Bool) :
    Except String HybridRetrievalResult :=
  if symbols.isEmpty then .ok (emptyResult query)
  else
    match embeddingsOpt with
    | none => .error "Retriever not properly initialized - no embeddings"
    | some embeddings =>
      let cleanQ := env.stripAsy query
      let bm25 := env.bm25All cleanQ expandQ
      match env.embed cleanQ with
      | .error _ => .ok (emptyResult query)
      | .ok qv =>
        let dense := denseScores env embeddings qv
        .ok (fuseSelect query symbols rrfK bm25 dense topK bw dw minScore reqSympy dedup)

/-- Model of `HybridRetriever._retrieve_with_embedding` (lines 448-541):
the same pipeline with a caller-supplied query vector in place of the
embedding call; the empty/uninitialised guard returns the empty result
instead of raising. -/
def retrieveWithEmbeddingM (env : Env) (symbols : List Symbol)
    (embeddingsOpt : Option (List (List ℚ))) (rrfK : ℚ) (query : String)
    (qv : List ℚ) (topK : ℕ) (bw dw minScore : ℚ)
    (reqSympy expandQ dedup : Bool) : HybridRetrievalResult :=
  if symbols.isEmpty || embeddingsOpt.isNone then emptyResult query
  else
    let embeddings := embeddingsOpt.getD []
    let cleanQ := env.stripAsy query
    let bm25 := env.bm25All cleanQ expandQ
    let dense := denseScores env embeddings qv
    fuseSelect query symbols rrfK bm25 dense topK bw dw minScore reqSympy dedup

/-- Python dict lookup over an insertion-ordered association list: the
last write for a key wins. -/
def assocGet (l : List (String × List ℚ)) (k : String) : Option (List ℚ) :=
  (l.reverse.find? (fun p => p.1 == k)).map (fun p => p.2)

/-- Model of `HybridRetriever.retrieve_batch` (lines 658-725): build the
pre-computed embedding lookup (dropped entirely on a row-count mismatch),
then per problem join the concepts into a query and dispatch to the
pre-computed-vector path or to plain `retrieve` (whose uncaught errors
propagate out of the batch). -/
def retrieveBatchM (env : Env) (symbols : List Symbol)
    (embeddingsOpt : Option (List (List ℚ))) (rrfK : ℚ)
    (conceptsByProblem : List (String × List String)) (topK : ℕ) (bw dw : ℚ)
    (conceptEmbeddings : Option (List (List ℚ)))
    (conceptProblemIds : Option (List String)) :
    Except String (List (String × HybridRetrievalResult)) :=
  let lookup : List (String × List ℚ) :=
    match conceptEmbeddings, conceptProblemIds with
    | some ce, some ids => if ids.length ≠ ce.length then [] else ids.zip ce
    | _, _ => []
  conceptsByProblem.mapM (fun pc =>
    let query := String.intercalate " " pc.2
    match assocGet lookup pc.1 with
    | some v =>
        .ok (pc.1, retrieveWithEmbeddingM env symbols embeddingsOpt rrfK query v
          topK bw dw 0 false true true)
    | none =>
        (retrieveM env symbols embeddingsOpt rrfK query topK bw dw 0 false true true).map
          (fun r => (pc.1, r)))

/-- Model of `_compute_all_embeddings` (lines 304-335): embed each symbol
in order; a per-symbol embedding failure is degraded to a zero vector the
size of the first computed embedding, except a failure on the very first
symbol which re-raises.  The accumulator holds rows in reverse. -/
def computeAll (embedF : Symbol → Except String (List ℚ)) :
    List Symbol → List (List ℚ) → Except String (List (List ℚ))
  | [], acc => .ok acc.reverse
  | s :: rest, acc =>
    match embedF s with
    | .ok v => computeAll embedF rest (v :: acc)
    | .error e =>
      match acc with
      | [] => .error e
      | _ => computeAll embedF rest (List.replicate ((acc.getLast?.getD []).length) 0 :: acc)

/-- Model of `_load_or_compute_embeddings` (lines 238-270) on a non-empty
symbol list.  `cache` is the persisted `.npy` content (`none` when the
file is missing or unreadable); the returned pair is
`(self.embeddings, cache content afterwards)`, with `np.save` modelled as
succeeding. -/
def loadOrComputeEmbeddings (embedF : Symbol → Except String (List ℚ))
    (symbols : List Symbol) (cache : Option (List (List ℚ))) :
    Except String (List (List ℚ) × Option (List (List ℚ))) :=
  if symbols.isEmpty then .ok ([], cache)
  else
    match cache with
    | some rows =>
      if rows.length = symbols.length then .ok (rows, some rows)
      else (computeAll embedF symbols []).map (fun e => (e, some e))
    | none => (computeAll embedF symbols []).map (fun e => (e, some e))

/-- Fixed candidate lists for the spec's concrete threshold-rule cases. -/
def exCands5 : List Candidate :=
  [⟨"c1", "a"⟩, ⟨"c2", "b"⟩, ⟨"c3", "d"⟩, ⟨"c4", "e"⟩, ⟨"c5", "f"⟩]

/-- Three-candidate list for the remaining concrete cases. -/
def exCands3 : List Candidate :=
  [⟨"c1", "a"⟩, ⟨"c2", "b"⟩, ⟨"c3", "d"⟩]

/-- A deterministic stand-in environment for concrete instantiations. -/
def demoEnv : Env :=
  { bm25All := fun _ _ => [3, 1]
    stripAsy := fun s => s
    embed := fun _ => .ok [1, 0]
    sqrtFn := fun q => q }

/-- The demo environment with a failing embedding endpoint. -/
def failEnv : Env :=
  { demoEnv with embed := fun _ => .error "Embedding request failed" }

/-- A two-symbol demo catalogue with distinct full ids. -/
def demoSymbols : List Symbol :=
  [{ id := "arith1:gcd", cd := "arith1", name := "gcd", sympyFunction := "sympy.gcd" },
   { id := "poly:gcd", cd := "poly", name := "gcd", sympyFunction := "" }]

/-- A demo embedding table aligned with `demoSymbols`. -/
def demoEmbeddings : List (List ℚ) := [[1, 0], [0, 1]]

/-- A constant per-symbol embedding oracle for concrete instantiations. -/
def constEmbedF : Symbol → Except String (List ℚ) := fun _ => .ok [1]

theorem insertDescPair_perm (p : Candidate × ℚ) (l : List (Candidate × ℚ)) :
    (insertDescPair p l).Perm (p :: l) := by
  induction l with
  | nil => simp [insertDescPair]
  | cons q rest ih =>
    simp only [insertDescPair]
    by_cases h : q.2 > p.2
    · simp only [if_pos h]
      exact (ih.cons q).trans (List.Perm.swap p q rest)
    · simp [if_neg h]

theorem sortDescPairs_perm (l : List (Candidate × ℚ)) :
    (sortDescPairs l).Perm l := by
  induction l with
  | nil => simp [sortDescPairs]
  | cons p rest ih =>
    exact (insertDescPair_perm p (sortDescPairs rest)).trans (ih.cons p)

/-- C1: `apply_threshold_rule` returns exactly the first
`min (max min_keep (count of scores ≥ threshold)) (number of candidates)`
pairs of the candidate/score pairs sorted descending by score; in
particular scores `[0.9, 0.8, 0.75, 0.71, 0.65]` with threshold `0.7` and
`min_keep = 3` keep 4 pairs, `[0.5, 0.4, 0.3]` keep 3, and
`[0.75, 0.75, 0.61]` keep all 3. -/
theorem apply_threshold_rule_spec :
    (∀ (c : List Candidate) (s : List ℚ) (t : ℚ) (m : ℕ), s.length = c.length →
      apply_threshold_rule c s t m =
        (sortDescPairs (c.zip s)).take
          (min (max m (s.countP (fun x => t ≤ x))) c.length)) ∧
    (apply_threshold_rule exCands5 [9/10, 4/5, 3/4, 71/100, 13/20] (7/10) 3).length = 4 ∧
    (apply_threshold_rule exCands3 [1/2, 2/5, 3/10] (7/10) 3).length = 3 ∧
    (apply_threshold_rule exCands3 [3/4, 3/4, 61/100] (7/10) 3).length = 3 := by
  refine ⟨?_,
    by norm_num [apply_threshold_rule, sortDescPairs, insertDescPair, exCands5,
      List.countP, List.countP.go],
    by norm_num [apply_threshold_rule, sortDescPairs, insertDescPair, exCands3,
      List.countP, List.countP.go],
    by norm_num [apply_threshold_rule, sortDescPairs, insertDescPair, exCands3,
      List.countP, List.countP.go]⟩
  intro c s t m hlen
  simp only [apply_threshold_rule]
  have hperm := sortDescPairs_perm (c.zip s)
  have hlenz : (c.zip s).length = c.length := by
    rw [List.length_zip, hlen, min_self]
  have hcount : (sortDescPairs (c.zip s)).countP (fun p => decide (t ≤ p.2)) =
      s.countP (fun x => decide (t ≤ x)) := by
    rw [hperm.countP_eq]
    have hs : (c.zip s).map Prod.snd = s := List.map_snd_zip c s (le_of_eq hlen)
    calc (c.zip s).countP (fun p => decide (t ≤ p.2))
        = ((c.zip s).map Prod.snd).countP (fun x => decide (t ≤ x)) := by
          rw [List.countP_map]; rfl
      _ = s.countP (fun x => decide (t ≤ x)) := by rw [hs]
  rw [hcount, hperm.length_eq, hlenz]

/-- Witness for C1: the general clause applied to the second concrete
case from the spec, with its length hypothesis discharged. -/
theorem apply_threshold_rule_spec_witness :
    apply_threshold_rule exCands3 [1/2, 2/5, 3/10] (7/10) 3 =
      (sortDescPairs (exCands3.zip [1/2, 2/5, 3/10])).take
        (min (max 3 (([1/2, 2/5, 3/10] : List ℚ).countP (fun x => (7:ℚ)/10 ≤ x)))
          exCands3.length) :=
  apply_threshold_rule_spec.1 exCands3 [1/2, 2/5, 3/10] (7/10) 3 rfl

/-- C2 (violated by the code): the claim demands at least
`min(min_keep, candidate count)` survivors from every backend, but
`SentenceTransformerReranker.rerank` keeps only candidates with
`score >= threshold` and never consults `self.min_keep` (contradicting
its own constructor doc "Minimum candidates to always keep"): with
`threshold = 0.15` and three candidates scored `0.10, 0.05, 0.08`, the
successful result keeps zero symbols. -/
theorem st_rerank_min_keep_violation :
    (stRerank "math_00000" "Find the GCD of 48 and 18." exCands3
        [1/10, 1/20, 2/25] (3/20)).reranked_symbols = [] ∧
    (stRerank "math_00000" "Find the GCD of 48 and 18." exCands3
        [1/10, 1/20, 2/25] (3/20)).original_count = 3 ∧
    (stRerank "math_00000" "Find the GCD of 48 and 18." exCands3
        [1/10, 1/20, 2/25] (3/20)).success = true := by
  refine ⟨?_, rfl, rfl⟩
  norm_num [stRerank, sortDescPairs, insertDescPair, exCands3, List.filter]

theorem insertIdx_perm (s : List ℚ) (i : ℕ) (l : List ℕ) :
    (insertIdx s i l).Perm (i :: l) := by
  induction l with
  | nil => simp [insertIdx]
  | cons j rest ih =>
    simp only [insertIdx]
    by_cases h : idxBefore s i j = true
    · simp [if_pos h]
    · simp only [if_neg h]
      exact (ih.cons j).trans (List.Perm.swap i j rest)

theorem argsortDesc_perm (s : List ℚ) :
    (argsortDesc s).Perm (List.range s.length) := by
  unfold argsortDesc
  generalize List.range s.length = l
  induction l with
  | nil => simp
  | cons i rest ih =>
    exact (insertIdx_perm s i (rest.foldr (insertIdx s) [])).trans (ih.cons i)

theorem mem_argsortDesc (s : List ℚ) (i : ℕ) :
    i ∈ argsortDesc s ↔ i < s.length := by
  rw [(argsortDesc_perm s).mem_iff, List.mem_range]

theorem argsortDesc_nodup (s : List ℚ) : (argsortDesc s).Nodup :=
  (argsortDesc_perm s).nodup_iff.mpr (List.nodup_range _)

theorem addAt_length : ∀ (v : List ℚ) (i : ℕ) (x : ℚ), (addAt v i x).length = v.length
  | [], _, _ => rfl
  | _ :: ys, 0, _ => by simp [addAt]
  | _ :: ys, n + 1, x => by simp [addAt, addAt_length ys n x]

theorem addAt_getD_self : ∀ (v : List ℚ) (i : ℕ) (x : ℚ), i < v.length →
    (addAt v i x).getD i 0 = v.getD i 0 + x
  | [], i, x, h => by simp at h
  | y :: ys, 0, x, _ => by simp [addAt]
  | y :: ys, n + 1, x, h => by
    simp only [addAt, List.getD_cons_succ]
    exact addAt_getD_self ys n x (by simpa using h)

theorem addAt_getD_ne : ∀ (v : List ℚ) (j : ℕ) (x : ℚ) (i : ℕ), i ≠ j →
    (addAt v j x).getD i 0 = v.getD i 0
  | [], _, _, _, _ => rfl
  | y :: ys, 0, x, 0, h => absurd rfl h
  | y :: ys, 0, x, i + 1, _ => by simp [addAt]
  | y :: ys, j + 1, x, 0, _ => by simp [addAt]
  | y :: ys, j + 1, x, i + 1, h => by
    simp only [addAt, List.getD_cons_succ]
    exact addAt_getD_ne ys j x i (fun he => h (by omega))

theorem getD_replicate_zero : ∀ (n i : ℕ), (List.replicate n (0:ℚ)).getD i 0 = 0
  | 0, _ => rfl
  | n + 1, 0 => rfl
  | n + 1, i + 1 => by
    simp only [List.replicate, List.getD_cons_succ]
    exact getD_replicate_zero n i

theorem rrfLoop_go_length (w k : ℚ) :
    ∀ (ps : List (ℕ × ℕ)) (v : List ℚ),
      (ps.foldl (fun acc p => addAt acc p.2 (w / (k + p.1 + 1))) v).length = v.length
  | [], _ => rfl
  | p :: rest, v => by
    rw [List.foldl_cons, rrfLoop_go_length w k rest _, addAt_length]

theorem rrfLoop_length (w k : ℚ) (ranks : List ℕ) (v : List ℚ) :
    (rrfLoop w k ranks v).length = v.length :=
  rrfLoop_go_length w k ranks.enum v

theorem rrfLoop_go_getD (w k : ℚ) :
    ∀ (ranks : List ℕ) (s : ℕ) (v : List ℚ) (i : ℕ), ranks.Nodup → i < v.length →
      ((ranks.enumFrom s).foldl (fun acc p => addAt acc p.2 (w / (k + p.1 + 1))) v).getD i 0 =
        v.getD i 0 +
          (if i ∈ ranks then w / (k + ((s + ranks.indexOf i : ℕ) : ℚ) + 1) else 0)
  | [], s, v, i, _, _ => by simp
  | j :: rest, s, v, i, hnd, hi => by
    have hrest : rest.Nodup := hnd.of_cons
    have hjrest : j ∉ rest := (List.nodup_cons.mp hnd).1
    rw [List.enumFrom_cons, List.foldl_cons]
    rw [rrfLoop_go_getD w k rest (s + 1) (addAt v j (w / (k + s + 1))) i hrest
      (by rw [addAt_length]; exact hi)]
    by_cases hij : i = j
    · subst hij
      rw [addAt_getD_self v i _ hi, if_neg (fun hm => hjrest hm),
        if_pos (List.mem_cons_self i rest), List.indexOf_cons_self]
      push_cast
      ring
    · rw [addAt_getD_ne v j _ i hij]
      by_cases hm : i ∈ rest
      · rw [if_pos hm, if_pos (List.mem_cons_of_mem j hm),
          List.indexOf_cons_ne rest (fun he => hij he.symm)]
        congr 3
        push_cast
        ring
      · rw [if_neg hm, if_neg (by
          intro hc
          rcases List.mem_cons.mp hc with h1 | h2
          · exact hij h1
          · exact hm h2)]

theorem rrfLoop_getD (w k : ℚ) (ranks : List ℕ) (v : List ℚ) (i : ℕ)
    (hnd : ranks.Nodup) (hi : i < v.length) :
    (rrfLoop w k ranks v).getD i 0 =
      v.getD i 0 + (if i ∈ ranks then w / (k + (ranks.indexOf i : ℚ) + 1) else 0) := by
  have he : ranks.enum = ranks.enumFrom 0 := rfl
  have := rrfLoop_go_getD w k ranks 0 v i hnd hi
  rw [rrfLoop, he, this]
  simp

theorem rrfScores_length (n : ℕ) (bw dw k : ℚ) (bm25 dense : List ℚ) :
    (rrfScores n bw dw k bm25 dense).length = n := by
  rw [rrfScores, rrfLoop_length, rrfLoop_length, List.length_replicate]

theorem rrfScores_getD (n : ℕ) (bw dw k : ℚ) (bm25 dense : List ℚ)
    (hb : bm25.length = n) (hd : dense.length = n) (i : ℕ) (hi : i < n) :
    (rrfScores n bw dw k bm25 dense).getD i 0 =
      bw / (k + ((argsortDesc bm25).indexOf i : ℚ) + 1) +
        dw / (k + ((argsortDesc dense).indexOf i : ℚ) + 1) := by
  rw [rrfScores,
    rrfLoop_getD dw k _ _ i (argsortDesc_nodup dense)
      (by rw [rrfLoop_length, List.length_replicate]; exact hi),
    rrfLoop_getD bw k _ _ i (argsortDesc_nodup bm25)
      (by rw [List.length_replicate]; exact hi),
    getD_replicate_zero,
    if_pos ((mem_argsortDesc bm25 i).mpr (hb ▸ hi)),
    if_pos ((mem_argsortDesc dense i).mpr (hd ▸ hi))]
  ring

/-- C3: in `retrieve`, the fused score of the symbol at catalogue
position `i` equals
`bm25_weight / (rrf_k + bm25_rank + 1) + dense_weight / (rrf_k + dense_rank + 1)`,
where the ranks are the 0-based positions of `i` in the descending
argsorts of the BM25 and cosine-similarity score vectors. -/
theorem fused_score_formula (n : ℕ) (bw dw k : ℚ) (bm25 dense : List ℚ) (i : ℕ)
    (hb : bm25.length = n) (hd : dense.length = n) (hi : i < n) :
    (rrfScores n bw dw k bm25 dense).getD i 0 =
      bw / (k + ((argsortDesc bm25).indexOf i : ℚ) + 1) +
        dw / (k + ((argsortDesc dense).indexOf i : ℚ) + 1) :=
  rrfScores_getD n bw dw k bm25 dense hb hd i hi

/-- Witness for C3 at a concrete two-symbol score profile. -/
theorem fused_score_formula_witness :
    (rrfScores 2 1 1 60 [1, 2] [2, 1]).getD 0 0 =
      1 / (60 + ((argsortDesc [1, 2]).indexOf 0 : ℚ) + 1) +
        1 / (60 + ((argsortDesc [2, 1]).indexOf 0 : ℚ) + 1) :=
  fused_score_formula 2 1 1 60 [1, 2] [2, 1] 0 rfl rfl (by decide)

/-- C9: with non-negative weights, if symbol `A` ranks at least as high
as symbol `B` on both the BM25 and the dense ranking, then the fused RRF
score of `A` is at least that of `B`. -/
theorem rrf_fusion_monotone (n : ℕ) (bw dw k : ℚ) (bm25 dense : List ℚ) (A B : ℕ)
    (hbw : 0 ≤ bw) (hdw : 0 ≤ dw) (hk : 0 ≤ k)
    (hb : bm25.length = n) (hd : dense.length = n) (hA : A < n) (hB : B < n)
    (h1 : (argsortDesc bm25).indexOf A ≤ (argsortDesc bm25).indexOf B)
    (h2 : (argsortDesc dense).indexOf A ≤ (argsortDesc dense).indexOf B) :
    (rrfScores n bw dw k bm25 dense).getD B 0 ≤
      (rrfScores n bw dw k bm25 dense).getD A 0 := by
  rw [rrfScores_getD n bw dw k bm25 dense hb hd A hA,
    rrfScores_getD n bw dw k bm25 dense hb hd B hB]
  have c1 : ((argsortDesc bm25).indexOf A : ℚ) ≤ (argsortDesc bm25).indexOf B := by
    exact_mod_cast h1
  have c2 : ((argsortDesc dense).indexOf A : ℚ) ≤ (argsortDesc dense).indexOf B := by
    exact_mod_cast h2
  have q1 : (0:ℚ) ≤ ((argsortDesc bm25).indexOf A : ℚ) := Nat.cast_nonneg _
  have q2 : (0:ℚ) ≤ ((argsortDesc dense).indexOf A : ℚ) := Nat.cast_nonneg _
  gcongr

/-- Witness for C9 at a concrete two-symbol score profile. -/
theorem rrf_fusion_monotone_witness :
    (rrfScores 2 1 2 60 [2, 1] [2, 1]).getD 1 0 ≤
      (rrfScores 2 1 2 60 [2, 1] [2, 1]).getD 0 0 :=
  rrf_fusion_monotone 2 1 2 60 [2, 1] [2, 1] 0 1 (by decide) (by decide) (by decide)
    rfl rfl (by decide) (by decide) (by decide) (by decide)

/-- C5 counterexample: on a non-empty catalogue with an initialised
embedding table, a failing query-embedding call does NOT make `retrieve`
fail hard; the call succeeds and returns exactly the freshly initialised
zero-entry result, the same value a nothing-matched query would produce
(and `HybridRetrievalResult` carries no error flag to tell them apart). -/
theorem retrieve_embed_failure_ok_empty :
    retrieveM failEnv demoSymbols (some demoEmbeddings) 60 "q" 50 1 1 0
        false true true =
      Except.ok (emptyResult "q") := rfl

/-- C5 amended: if the embedding call for the query fails, `retrieve` on
a non-empty catalogue catches the failure and returns the zero-entry
`HybridRetrievalResult` as a successful outcome, not a hard error; the
result value is identical to the valid nothing-matched result. -/
theorem retrieve_embed_failure_amended (env : Env) (symbols : List Symbol)
    (E : List (List ℚ)) (rrfK : ℚ) (query : String) (topK : ℕ)
    (bw dw minScore : ℚ) (reqSympy expandQ dedup : Bool) (err : String)
    (hne : symbols ≠ [])
    (hfail : env.embed (env.stripAsy query) = .error err) :
    retrieveM env symbols (some E) rrfK query topK bw dw minScore
        reqSympy expandQ dedup =
      Except.ok (emptyResult query) := by
  have hemp : symbols.isEmpty = false := by
    cases symbols with
    | nil => exact absurd rfl hne
    | cons a l => rfl
  simp [retrieveM, hemp, hfail]

/-- Witness for C5 amended at a concrete failing environment. -/
theorem retrieve_embed_failure_amended_witness :
    retrieveM failEnv demoSymbols (some demoEmbeddings) 60 "query" 10 1 1 0
        false true true =
      Except.ok (emptyResult "query") :=
  retrieve_embed_failure_amended failEnv demoSymbols demoEmbeddings 60 "query"
    10 1 1 0 false true true "Embedding request failed"
    (by simp [demoSymbols]) rfl

/-- C4: `retrieve_batch` over a single query whose vector is supplied as
a precomputed embedding returns exactly the result `retrieve` produces on
that query when its internal embedding call returns the same vector, for
equal `top_k` and weights (same symbol order, fused scores and diagnostic
maps, since the whole `HybridRetrievalResult` values are equal). -/
theorem retrieve_batch_single_agrees (env : Env) (symbols : List Symbol)
    (E : List (List ℚ)) (rrfK : ℚ) (pid : String) (concepts : List String)
    (v : List ℚ) (topK : ℕ) (bw dw : ℚ)
    (hembed : env.embed (env.stripAsy (String.intercalate " " concepts)) = .ok v) :
    retrieveBatchM env symbols (some E) rrfK [(pid, concepts)] topK bw dw
        (some [v]) (some [pid]) =
      (retrieveM env symbols (some E) rrfK (String.intercalate " " concepts)
          topK bw dw 0 false true true).map (fun r => [(pid, r)]) := by
  cases symbols with
  | nil =>
    simp [retrieveBatchM, retrieveM, retrieveWithEmbeddingM, assocGet,
      Except.map, List.mapM, List.mapM.loop]
  | cons s rest =>
    simp [retrieveBatchM, retrieveM, retrieveWithEmbeddingM, assocGet, hembed,
      Except.map, List.mapM, List.mapM.loop]

/-- Witness for C4 at a concrete one-problem batch. -/
theorem retrieve_batch_single_agrees_witness :
    retrieveBatchM demoEnv demoSymbols (some demoEmbeddings) 60
        [("p1", ["q1", "q2"])] 10 1 1 (some [[1, 0]]) (some ["p1"]) =
      (retrieveM demoEnv demoSymbols (some demoEmbeddings) 60
          (String.intercalate " " ["q1", "q2"]) 10 1 1 0 false true true).map
        (fun r => [("p1", r)]) :=
  retrieve_batch_single_agrees demoEnv demoSymbols demoEmbeddings 60 "p1"
    ["q1", "q2"] [1, 0] 10 1 1 rfl

theorem computeAll_length (embedF : Symbol → Except String (List ℚ)) :
    ∀ (symbols : List Symbol) (acc E : List (List ℚ)),
      computeAll embedF symbols acc = .ok E → E.length = acc.length + symbols.length
  | [], acc, E, h => by
    simp only [computeAll, Except.ok.injEq] at h
    subst h
    simp
  | s :: rest, acc, E, h => by
    simp only [computeAll] at h
    cases he : embedF s with
    | ok v =>
      rw [he] at h
      have := computeAll_length embedF rest (v :: acc) E h
      simp only [List.length_cons] at this
      simp only [List.length_cons]
      omega
    | error e =>
      rw [he] at h
      cases acc with
      | nil => exact absurd h (by simp)
      | cons a as =>
        have := computeAll_length embedF rest (_ :: a :: as) E h
        simp only [List.length_cons] at this
        simp only [List.length_cons]
        omega

/-- C8: after construction on a non-empty symbol list the stored
embedding table has exactly one row per symbol; a persisted cache is
accepted only when its row count matches, and on a mismatch every vector
is recomputed and the freshly computed table (whose row count matches)
overwrites the stale cache. -/
theorem embeddings_row_invariant (embedF : Symbol → Except String (List ℚ))
    (symbols : List Symbol) (cache : Option (List (List ℚ)))
    (E : List (List ℚ)) (c2 : Option (List (List ℚ)))
    (hne : symbols ≠ [])
    (h : loadOrComputeEmbeddings embedF symbols cache = .ok (E, c2)) :
    E.length = symbols.length ∧
      (∀ rows, cache = some rows → rows.length = symbols.length →
        E = rows ∧ c2 = some rows) ∧
      (∀ rows, cache = some rows → rows.length ≠ symbols.length →
        computeAll embedF symbols [] = .ok E ∧ c2 = some E) := by
  have hemp : symbols.isEmpty = false := by
    cases symbols with
    | nil => exact absurd rfl hne
    | cons a l => rfl
  cases cache with
  | none =>
    cases hc : computeAll embedF symbols [] with
    | ok e =>
      simp only [loadOrComputeEmbeddings, hemp, Bool.false_eq_true, if_false, hc,
        Except.map, Except.ok.injEq, Prod.mk.injEq] at h
      obtain ⟨hE, hc2⟩ := h
      subst hE
      subst hc2
      refine ⟨by simpa using computeAll_length embedF symbols [] _ hc, ?_, ?_⟩
      · intro rows hr
        cases hr
      · intro rows hr
        cases hr
    | error e =>
      simp [loadOrComputeEmbeddings, hemp, hc, Except.map] at h
  | some rows =>
    by_cases hlen : rows.length = symbols.length
    · simp only [loadOrComputeEmbeddings, hemp, Bool.false_eq_true, if_false,
        if_pos hlen, Except.ok.injEq, Prod.mk.injEq] at h
      obtain ⟨hE, hc2⟩ := h
      subst hE
      subst hc2
      refine ⟨hlen, ?_, ?_⟩
      · intro r hr _
        cases hr
        exact ⟨rfl, rfl⟩
      · intro r hr hne2
        cases hr
        exact absurd hlen hne2
    · cases hc : computeAll embedF symbols [] with
      | ok e =>
        simp only [loadOrComputeEmbeddings, hemp, Bool.false_eq_true, if_false,
          if_neg hlen, hc, Except.map, Except.ok.injEq, Prod.mk.injEq] at h
        obtain ⟨hE, hc2⟩ := h
        subst hE
        subst hc2
        refine ⟨by simpa using computeAll_length embedF symbols [] _ hc, ?_, ?_⟩
        · intro r hr hlen2
          cases hr
          exact absurd hlen2 hlen
        · intro r hr _
          exact ⟨rfl, rfl⟩
      | error e =>
        simp [loadOrComputeEmbeddings, hemp, if_neg hlen, hc, Except.map] at h

/-- Witness for C8: a one-row stale cache against the two-symbol demo
catalogue forces recomputation with a matching row count. -/
theorem embeddings_row_invariant_witness :
    ([[1], [1]] : List (List ℚ)).length = demoSymbols.length :=
  (embeddings_row_invariant constEmbedF demoSymbols (some [[5]]) [[1], [1]]
    (some [[1], [1]]) (by simp [demoSymbols]) rfl).1

theorem clamp01_nonneg (q : ℚ) : 0 ≤ clamp01 q :=
  le_max_left 0 _

theorem clamp01_le_one (q : ℚ) : clamp01 q ≤ 1 :=
  max_le (by norm_num) (min_le_left 1 q)

theorem extract_score_of_raised (f : String → Option ℚ) (p : Option Json)
    (t : Option ℚ) (h : jsonPathScore f p = .raised) :
    extract_score f false p t =
      .error "OverflowError: int too large to convert to float" := by
  rw [extract_score.eq_def, if_neg (by simp), h]

set_option maxRecDepth 40000 in
/-- C10 counterexample: `_extract_score` can raise.  On the response
`{"score": 10^320}` (a 321-digit JSON integer, well under the parser's
digit limit), `json.loads` succeeds and `float(data["score"])` raises
`OverflowError`, which is outside the
`except (json.JSONDecodeError, ValueError, TypeError)` tuple and escapes
the function instead of yielding a clamped score. -/
theorem extract_score_overflow_raises :
    extract_score (fun _ => (none : Option ℚ)) false
        (some (.obj [("score", .int (10 ^ 320))])) none =
      .error "OverflowError: int too large to convert to float" :=
  extract_score_of_raised (fun _ => (none : Option ℚ))
    (some (.obj [("score", .int (10 ^ 320))])) none (by decide)

set_option maxRecDepth 40000 in
/-- C10 amended: `_extract_score` returns a score clamped to `[0, 1]` on
every path that returns at all — JSON objects read through the keys
`score`, `relevance`, `rating`, `value` in order, bare JSON numbers used
directly, a free-text number above `1.0` divided by 100, blank or
unparseable input yielding `0.0` — but it is not exception-free: when the
first probed JSON number is an integer of magnitude at least `2 ^ 1024`,
`float` raises an `OverflowError` that the `except` tuple does not catch
and the call raises instead of returning. -/
theorem extract_score_amended_spec :
    (∀ (f : String → Option ℚ) (b : Bool) (p : Option Json) (t : Option ℚ) (q : ℚ),
      extract_score f b p t = .ok q → 0 ≤ q ∧ q ≤ 1) ∧
    (∀ (f : String → Option ℚ) (q : ℚ) (t : Option ℚ),
      extract_score f false (some (.real q)) t = .ok (clamp01 q)) ∧
    (∀ (f : String → Option ℚ) (n : ℤ) (t : Option ℚ), n.natAbs < 2 ^ 1024 →
      extract_score f false (some (.int n)) t = .ok (clamp01 (n : ℚ))) ∧
    (∀ (f : String → Option ℚ) (l : List (String × Json)) (t : Option ℚ) (q : ℚ),
      jsonPathScore f (some (.obj l)) = .value q →
      extract_score f false (some (.obj l)) t = .ok (clamp01 q)) ∧
    (∀ (f : String → Option ℚ) (p : Option Json) (t : Option ℚ),
      jsonPathScore f p = .raised →
      extract_score f false p t =
        .error "OverflowError: int too large to convert to float") ∧
    (∀ (f : String → Option ℚ) (p : Option Json) (m : ℚ),
      jsonPathScore f p = .fallthrough →
      extract_score f false p (some m) =
        .ok (if m > 1 then clamp01 (m / 100) else clamp01 m)) ∧
    (∀ (f : String → Option ℚ) (p : Option Json) (t : Option ℚ),
      extract_score f true p t = .ok 0) ∧
    (∀ (f : String → Option ℚ) (p : Option Json),
      jsonPathScore f p = .fallthrough →
      extract_score f false p none = .ok 0) := by
  refine ⟨?_, ?_, ?_, ?_, ?_, ?_, ?_, ?_⟩
  · intro f b p t q h
    rw [extract_score.eq_def] at h
    by_cases hb : b = true
    · rw [if_pos hb] at h
      simp only [Except.ok.injEq] at h
      subst h
      norm_num
    · rw [if_neg hb] at h
      cases hj : jsonPathScore f p with
      | value q2 =>
        rw [hj] at h
        simp only [Except.ok.injEq] at h
        subst h
        exact ⟨clamp01_nonneg q2, clamp01_le_one q2⟩
      | raised =>
        rw [hj] at h
        simp at h
      | fallthrough =>
        rw [hj] at h
        cases t with
        | some m =>
          dsimp only at h
          simp only [Except.ok.injEq] at h
          subst h
          by_cases hm : m > 1
          · rw [if_pos hm]
            exact ⟨clamp01_nonneg _, clamp01_le_one _⟩
          · rw [if_neg hm]
            exact ⟨clamp01_nonneg m, clamp01_le_one m⟩
        | none =>
          dsimp only at h
          simp only [Except.ok.injEq] at h
          subst h
          norm_num
  · intro f q t
    rfl
  · intro f n t hn
    have hj : jsonPathScore f (some (.int n)) = .value (n : ℚ) := by
      simp only [jsonPathScore, pyFloat, if_neg (not_le.mpr hn)]
    rw [extract_score.eq_def, if_neg (by simp), hj]
  · intro f l t q h
    rw [extract_score.eq_def, if_neg (by simp), h]
  · intro f p t h
    exact extract_score_of_raised f p t h
  · intro f p m h
    rw [extract_score.eq_def, if_neg (by simp), h]
  · intro f p t
    rfl
  · intro f p h
    rw [extract_score.eq_def, if_neg (by simp), h]

/-- Witness for C10 amended: the free-text percentage path at `85`. -/
theorem extract_score_amended_spec_witness :
    extract_score (fun _ => (none : Option ℚ)) false none (some 85) =
      .ok (clamp01 (85 / 100)) := by
  rw [extract_score_amended_spec.2.2.2.2.2.1 (fun _ => (none : Option ℚ)) none 85 rfl]
  rw [if_pos (by decide : (85:ℚ) > 1)]

theorem argsortDesc_length (s : List ℚ) : (argsortDesc s).length = s.length :=
  (argsortDesc_perm s).length_eq.trans (List.length_range _)

theorem mem_take_of_indexOf_lt :
    ∀ (l : List ℕ) (k a : ℕ), a ∈ l → l.indexOf a < k → a ∈ l.take k
  | [], _, a, h, _ => absurd h (List.not_mem_nil a)
  | b :: l, k, a, h, hlt => by
    by_cases hab : a = b
    · subst hab
      cases k with
      | zero => exact absurd hlt (Nat.not_lt_zero _)
      | succ k2 =>
        rw [List.take_succ_cons]
        exact List.mem_cons_self a _
    · have hmem : a ∈ l := by
        rcases List.mem_cons.mp h with h1 | h2
        · exact absurd h1 hab
        · exact h2
      rw [List.indexOf_cons_ne l (fun he => hab he.symm)] at hlt
      cases k with
      | zero => exact absurd hlt (Nat.not_lt_zero _)
      | succ k2 =>
        rw [List.take_succ_cons]
        exact List.mem_cons_of_mem b (mem_take_of_indexOf_lt l k2 a hmem (by omega))

theorem selectLoop_accept_all (symbols : List Symbol) (rrf : List ℚ) (topK : ℕ) :
    ∀ (idxs selected : List ℕ) (seen : List String),
      (∀ i ∈ idxs, 0 ≤ rrf.getD i 0) →
      (idxs.map (fun i => symbolKey (symbols.getD i default))).Nodup →
      (∀ i ∈ idxs, symbolKey (symbols.getD i default) ∉ seen) →
      selectLoop symbols rrf topK 0 false true idxs selected seen =
        selected.reverse ++ idxs.take (topK - selected.length)
  | [], selected, seen, _, _, _ => by simp [selectLoop]
  | idx :: rest, selected, seen, hsc, hnd, hseen => by
    simp only [selectLoop]
    by_cases htop : topK ≤ selected.length
    · rw [if_pos htop]
      have h0 : topK - selected.length = 0 := by omega
      rw [h0, List.take_zero, List.append_nil]
    · rw [if_neg htop, if_neg (not_lt.mpr (hsc idx (List.mem_cons_self idx rest)))]
      rw [if_neg (hseen idx (List.mem_cons_self idx rest))]
      simp only [List.map_cons, List.nodup_cons] at hnd
      obtain ⟨hhead, hndrest⟩ := hnd
      have hseen2 : ∀ i ∈ rest,
          symbolKey (symbols.getD i default) ∉
            symbolKey (symbols.getD idx default) :: seen := by
        intro i hi hmem
        rcases List.mem_cons.mp hmem with h1 | h2
        · exact hhead (h1 ▸ List.mem_map_of_mem _ hi)
        · exact hseen i (List.mem_cons_of_mem idx hi) h2
      rw [selectLoop_accept_all symbols rrf topK rest (idx :: selected)
        (symbolKey (symbols.getD idx default) :: seen)
        (fun i hi => hsc i (List.mem_cons_of_mem idx hi)) hndrest hseen2]
      rw [List.reverse_cons, List.append_assoc]
      have harith : topK - selected.length = (topK - (idx :: selected).length) + 1 := by
        simp only [List.length_cons]
        omega
      rw [harith, List.take_succ_cons]
      rfl

theorem fuseSelect_symbols (query : String) (symbols : List Symbol) (rrfK : ℚ)
    (bm25 dense : List ℚ) (topK : ℕ) (bw dw minScore : ℚ) (reqSympy dedup : Bool) :
    (fuseSelect query symbols rrfK bm25 dense topK bw dw minScore reqSympy dedup).symbols =
      (selectLoop symbols (rrfScores symbols.length bw dw rrfK bm25 dense) topK
          minScore reqSympy dedup
          (argsortDesc (rrfScores symbols.length bw dw rrfK bm25 dense)) [] []).map
        (fun i => symbols.getD i default) := rfl

/-- C7: with `deduplicate = true`, two symbols with different full ids
but the same bare name that both rank within the first `top_k` fused
positions are both returned by `retrieve`: deduplication compares full
symbol ids, never bare names. -/
theorem dedup_keeps_same_name_distinct_ids (query : String) (symbols : List Symbol)
    (bm25 dense : List ℚ) (rrfK bw dw : ℚ) (topK A B : ℕ)
    (hb : bm25.length = symbols.length) (hd : dense.length = symbols.length)
    (hbw : 0 ≤ bw) (hdw : 0 ≤ dw) (hk : 0 ≤ rrfK)
    (hinj : ∀ i ∈ List.range symbols.length, ∀ j ∈ List.range symbols.length,
      symbolKey (symbols.getD i default) = symbolKey (symbols.getD j default) → i = j)
    (hA : A < symbols.length) (hB : B < symbols.length)
    (_hname : (symbols.getD A default).name = (symbols.getD B default).name)
    (_hid : (symbols.getD A default).id ≠ (symbols.getD B default).id)
    (hposA : (argsortDesc (rrfScores symbols.length bw dw rrfK bm25 dense)).indexOf A < topK)
    (hposB : (argsortDesc (rrfScores symbols.length bw dw rrfK bm25 dense)).indexOf B < topK) :
    symbols.getD A default ∈
        (fuseSelect query symbols rrfK bm25 dense topK bw dw 0 false true).symbols ∧
      symbols.getD B default ∈
        (fuseSelect query symbols rrfK bm25 dense topK bw dw 0 false true).symbols := by
  have hlen : (rrfScores symbols.length bw dw rrfK bm25 dense).length = symbols.length :=
    rrfScores_length _ _ _ _ _ _
  have hsc : ∀ i ∈ argsortDesc (rrfScores symbols.length bw dw rrfK bm25 dense),
      0 ≤ (rrfScores symbols.length bw dw rrfK bm25 dense).getD i 0 := by
    intro i hi
    have hin : i < symbols.length := by
      rw [← hlen]
      exact (mem_argsortDesc _ i).mp hi
    rw [rrfScores_getD symbols.length bw dw rrfK bm25 dense hb hd i hin]
    have d1 : (0:ℚ) ≤ rrfK + ((argsortDesc bm25).indexOf i : ℚ) + 1 := by
      have h := (Nat.cast_nonneg ((argsortDesc bm25).indexOf i) : (0:ℚ) ≤ _)
      linarith
    have d2 : (0:ℚ) ≤ rrfK + ((argsortDesc dense).indexOf i : ℚ) + 1 := by
      have h := (Nat.cast_nonneg ((argsortDesc dense).indexOf i) : (0:ℚ) ≤ _)
      linarith
    exact add_nonneg (div_nonneg hbw d1) (div_nonneg hdw d2)
  have hnd : ((argsortDesc (rrfScores symbols.length bw dw rrfK bm25 dense)).map
      (fun i => symbolKey (symbols.getD i default))).Nodup := by
    refine (argsortDesc_nodup _).map_on ?_
    intro x hx y hy hxy
    refine hinj x ?_ y ?_ hxy
    · exact List.mem_range.mpr (by rw [← hlen]; exact (mem_argsortDesc _ x).mp hx)
    · exact List.mem_range.mpr (by rw [← hlen]; exact (mem_argsortDesc _ y).mp hy)
  have hwalk : selectLoop symbols (rrfScores symbols.length bw dw rrfK bm25 dense)
      topK 0 false true
      (argsortDesc (rrfScores symbols.length bw dw rrfK bm25 dense)) [] [] =
      (argsortDesc (rrfScores symbols.length bw dw rrfK bm25 dense)).take topK := by
    rw [selectLoop_accept_all symbols _ topK _ [] [] hsc hnd
      (fun i _ => List.not_mem_nil _)]
    simp
  have hmA : A ∈ argsortDesc (rrfScores symbols.length bw dw rrfK bm25 dense) :=
    (mem_argsortDesc _ A).mpr (by rw [hlen]; exact hA)
  have hmB : B ∈ argsortDesc (rrfScores symbols.length bw dw rrfK bm25 dense) :=
    (mem_argsortDesc _ B).mpr (by rw [hlen]; exact hB)
  constructor
  · rw [fuseSelect_symbols, hwalk]
    exact List.mem_map_of_mem _ (mem_take_of_indexOf_lt _ topK A hmA hposA)
  · rw [fuseSelect_symbols, hwalk]
    exact List.mem_map_of_mem _ (mem_take_of_indexOf_lt _ topK B hmB hposB)

/-- Witness for C7: the two demo symbols share the bare name `gcd` under
different full ids and both survive a `top_k = 2` retrieval. -/
theorem dedup_keeps_same_name_distinct_ids_witness :
    demoSymbols.getD 0 default ∈
        (fuseSelect "q" demoSymbols 60 [3, 1] [1, 2] 2 1 1 0 false true).symbols ∧
      demoSymbols.getD 1 default ∈
        (fuseSelect "q" demoSymbols 60 [3, 1] [1, 2] 2 1 1 0 false true).symbols := by
  have hmA : (0:ℕ) ∈ argsortDesc (rrfScores demoSymbols.length 1 1 60 [3, 1] [1, 2]) :=
    (mem_argsortDesc _ 0).mpr (by rw [rrfScores_length]; decide)
  have hmB : (1:ℕ) ∈ argsortDesc (rrfScores demoSymbols.length 1 1 60 [3, 1] [1, 2]) :=
    (mem_argsortDesc _ 1).mpr (by rw [rrfScores_length]; decide)
  have hposA := List.indexOf_lt_length.mpr hmA
  have hposB := List.indexOf_lt_length.mpr hmB
  rw [argsortDesc_length, rrfScores_length] at hposA hposB
  exact dedup_keeps_same_name_distinct_ids "q" demoSymbols [3, 1] [1, 2] 60 1 1 2 0 1
    rfl rfl (by decide) (by decide) (by decide) (by decide) (by decide) (by decide)
    (by decide) (by decide) hposA hposB

end Neus
